import Mathlib

/-!
Verification of `fastnbt`'s array sub-decoder (`src/fastnbt/src/de_arrays.rs`).

The file embeds the three decoding objects of that module — the
`ArrayWrapperAccess` synthetic-record state machine, the `ArrayAccess`
element sequence, and the `ArrayDeserializer` scalar reader — as pure
state-passing functions over an explicit cursor, and proves the
specification's claims about them.
-/

namespace FastNbt

/-- Modelled from the spec: the 1-byte `Tag` enumeration of §3 (the `Tag`
type lives in the crate root, which is not among the provided sources).
Codes follow the listed order; §8 confirms `IntArray = 11`. -/
inductive Tag
  | End
  | Byte
  | Short
  | Int
  | Long
  | Float
  | Double
  | ByteArray
  | String
  | List
  | Compound
  | IntArray
  | LongArray
deriving DecidableEq

/-- The numeric code of a tag (`u8::from(tag)` in the crate,
`let t: u8 = self.tag.into()` at the use site). -/
def Tag.toU8 : Tag → Nat
  | .End => 0
  | .Byte => 1
  | .Short => 2
  | .Int => 3
  | .Long => 4
  | .Float => 5
  | .Double => 6
  | .ByteArray => 7
  | .String => 8
  | .List => 9
  | .Compound => 10
  | .IntArray => 11
  | .LongArray => 12

/-- Modelled from the spec: the error kinds of §7 (`crate::error::Error` is
not among the provided sources; the source constructs errors via
`Error::bespoke(msg)` and io-error conversion). `truncatedInput` is a byte
read running past the end of the buffer; `malformedLength` a negative or
oversized declared count; `protocolMisuse msg` a programming-contract
violation such as the bespoke "unexpected any" error raised by
`ArrayDeserializer::deserialize_any`. -/
inductive Error
  | truncatedInput
  | malformedLength
  | protocolMisuse (msg : String)
deriving DecidableEq

/-- The cursor of `de::Deserializer`: an immutable byte buffer plus a
forward-only read position (the source's `self.de.input.0`, a reader over
the remaining input). Bytes are modelled as `Nat` values below 256. -/
structure Deserializer where
  input : List Nat
  pos : Nat
deriving DecidableEq

/-- Reading `w` raw bytes from the cursor, the behaviour of `read_exact` on
a byte slice as used by `byteorder::ReadBytesExt`: on success the `w` bytes
at the current position are returned and the position advances by `w`; if
fewer than `w` bytes remain the read fails (`truncatedInput`, §7) and the
position is unchanged (a slice's `read_exact` checks the length first). -/
def Deserializer.readBytes (de : Deserializer) (w : Nat) :
    Except Error (List Nat) × Deserializer :=
  if de.pos + w ≤ de.input.length then
    (.ok ((de.input.drop de.pos).take w), ⟨de.input, de.pos + w⟩)
  else
    (.error .truncatedInput, de)

/-- Big-endian value of a byte list (most significant byte first). -/
def beNat (bs : List Nat) : Nat :=
  bs.foldl (fun acc b => acc * 256 + b) 0

/-- Two's-complement reading of a `w`-byte big-endian unsigned value. -/
def signedOfBe (w : Nat) (u : Nat) : Int :=
  if u < 2 ^ (8 * w - 1) then (u : Int) else (u : Int) - 2 ^ (8 * w)

/-- The six scalar kinds `ArrayDeserializer` supports: the source implements
exactly `deserialize_i8`, `deserialize_u8`, `deserialize_i32`,
`deserialize_u32`, `deserialize_i64` and `deserialize_u64`. -/
inductive NumKind
  | i8
  | u8
  | i32
  | u32
  | i64
  | u64
deriving DecidableEq

/-- Byte width of a scalar kind. -/
def NumKind.width : NumKind → Nat
  | .i8 => 1
  | .u8 => 1
  | .i32 => 4
  | .u32 => 4
  | .i64 => 8
  | .u64 => 8

/-- Whether the scalar kind is signed (two's complement). -/
def NumKind.signed : NumKind → Bool
  | .i8 => true
  | .i32 => true
  | .i64 => true
  | .u8 => false
  | .u32 => false
  | .u64 => false

/-- Value of a big-endian byte slice at a scalar kind (`read_i8`,
`read_u8`, `read_i32::<BigEndian>`, ... of `byteorder`). -/
def NumKind.interp (k : NumKind) (bs : List Nat) : Int :=
  if k.signed then signedOfBe k.width (beNat bs) else (beNat bs : Int)

/-- The scalar entry points of `ArrayDeserializer`
(`deserialize_i8/u8/i32/u32/i64/u64`): each reads the kind's width from the
shared cursor in big-endian order via `byteorder` and hands the value to the
visitor; the observable outcome is the value and the advanced cursor, or the
read error with the cursor unchanged. -/
def ArrayDeserializer.deserializeNum (k : NumKind) (de : Deserializer) :
    Except Error Int × Deserializer :=
  match de.readBytes k.width with
  | (.ok bs, de') => (.ok (k.interp bs), de')
  | (.error e, de') => (.error e, de')

/-- `ArrayDeserializer::deserialize_any`: always fails with the bespoke
"fastnbt issue: unexpected any in ArrayDeserializer" error (classified as
`protocolMisuse` per §7/§9) and leaves the cursor untouched. -/
def ArrayDeserializer.deserializeAny (de : Deserializer) :
    Except Error Int × Deserializer :=
  (.error (.protocolMisuse "fastnbt issue: unexpected any in ArrayDeserializer"), de)

/-- The entry points `ArrayDeserializer` forwards to `deserialize_any` via
`forward_to_deserialize_any!`: `bool i16 i128 u16 u128 f32 f64 char str
string bytes byte_buf option unit unit_struct newtype_struct tuple
tuple_struct map struct enum identifier ignored_any`. -/
inductive UnsupportedKind
  | bool
  | i16
  | i128
  | u16
  | u128
  | f32
  | f64
  | char
  | str
  | string
  | bytes
  | byteBuf
  | option
  | unit
  | unitStruct
  | newtypeStruct
  | tuple
  | tupleStruct
  | map
  | struct
  | enum
  | identifier
  | ignoredAny
deriving DecidableEq

/-- A request made of `ArrayDeserializer` by a seed: one of the six
implemented scalar methods, or one of the forwarded (unsupported) ones. -/
inductive ReqKind
  | num (k : NumKind)
  | other (u : UnsupportedKind)
deriving DecidableEq

/-- Dispatch of a scalar-level request on `ArrayDeserializer`: the six
implemented methods read from the cursor; every forwarded method ends in
`deserialize_any`, which fails without touching the cursor. -/
def ArrayDeserializer.deserializeReq (r : ReqKind) (de : Deserializer) :
    Except Error Int × Deserializer :=
  match r with
  | .num k => ArrayDeserializer.deserializeNum k de
  | .other _ => ArrayDeserializer.deserializeAny de

/-- `ArrayAccess`: the element-sequence object. `hint` is the declared size
captured at construction; `remaining` counts down as elements are
produced. Both are `i32` in the source, modelled as `Int`. -/
structure ArrayAccess where
  de : Deserializer
  hint : Int
  remaining : Int
deriving DecidableEq

/-- `ArrayAccess::new(de, size)`: both `hint` and `remaining` start at the
declared size. -/
def ArrayAccess.new (de : Deserializer) (size : Int) : ArrayAccess :=
  ⟨de, size, size⟩

/-- `ArrayAccess::size_hint`: `self.hint.try_into().ok()` — the `i32 →
usize` conversion succeeds exactly on non-negative values. -/
def ArrayAccess.sizeHint (a : ArrayAccess) : Option Nat :=
  if 0 ≤ a.hint then some a.hint.toNat else none

/-- `ArrayAccess::next_element_seed`, with the seed requesting scalar kind
`k` (the width fixed by the array's element tag): if `remaining > 0` it is
decremented and one scalar is deserialized from the cursor — a read failure
propagates as-is, with `remaining` already decremented and the cursor
unmoved; otherwise the sequence reports exhaustion (`none`) and nothing
changes. -/
def ArrayAccess.nextElement (k : NumKind) (a : ArrayAccess) :
    Except Error (Option Int) × ArrayAccess :=
  if a.remaining > 0 then
    match ArrayDeserializer.deserializeNum k a.de with
    | (.ok v, de') => (.ok (some v), ⟨de', a.hint, a.remaining - 1⟩)
    | (.error e, de') => (.error e, ⟨de', a.hint, a.remaining - 1⟩)
  else
    (.ok none, a)

/-- The canonical sequence visitor (what serde's `Vec` visitor does with
`visit_seq`): repeatedly pulls `next_element_seed` until it reports `none`
or an error, accumulating the produced values. `fuel` bounds the number of
pulls; `remaining.toNat + 1` pulls always suffice. -/
def ArrayAccess.drain (k : NumKind) :
    Nat → ArrayAccess → List Int → Except Error (List Int) × ArrayAccess
  | 0, a, acc => (.ok acc.reverse, a)
  | fuel + 1, a, acc =>
    match a.nextElement k with
    | (.ok (some v), a') => ArrayAccess.drain k fuel a' (v :: acc)
    | (.ok none, a') => (.ok acc.reverse, a')
    | (.error e, a') => (.error e, a')

/-- `ArrayDeserializer::deserialize_seq`: runs
`visitor.visit_seq(ArrayAccess::new(self.de, self.size))` with the
canonical collecting visitor pulling elements of kind `k`. -/
def ArrayDeserializer.deserializeSeq (k : NumKind) (de : Deserializer)
    (size : Int) : Except Error (List Int) × Deserializer :=
  let p := ArrayAccess.drain k (size.toNat + 1) (ArrayAccess.new de size) []
  (p.1, p.2.de)

/-- `ArrWrapStage`: the strictly linear stage of the synthetic two-field
record, `Tag → Data → Done`. -/
inductive ArrWrapStage
  | Tag
  | Data
  | Done
deriving DecidableEq

/-- `ArrayWrapperAccess`: the synthetic-record adapter, holding the shared
cursor, the current stage, the array's element tag and the declared size. -/
structure ArrayWrapperAccess where
  de : Deserializer
  stage : ArrWrapStage
  tag : Tag
  size : Int
deriving DecidableEq

/-- `ArrayWrapperAccess::new(de, size, tag)`: starts in the `Tag` stage. -/
def ArrayWrapperAccess.new (de : Deserializer) (size : Int) (tag : Tag) :
    ArrayWrapperAccess :=
  ⟨de, .Tag, tag, size⟩

/-- `ArrayWrapperAccess::next_key_seed`: feeds the literal `"tag"` or
`"data"` to the seed depending on the stage, or reports end-of-record
(`none`) once `Done`. The stage and the cursor are not modified here. -/
def ArrayWrapperAccess.nextKey (m : ArrayWrapperAccess) :
    Except Error (Option String) × ArrayWrapperAccess :=
  match m.stage with
  | .Tag => (.ok (some "tag"), m)
  | .Data => (.ok (some "data"), m)
  | .Done => (.ok none, m)

/-- Result of one `next_value_seed` call: a value, an `Error` return, or a
Rust `panic!` (which is not an error value but an abort). -/
inductive Outcome (α : Type)
  | ok (a : α)
  | err (e : Error)
  | panicked (msg : String)
deriving DecidableEq

/-- The value a seed observes from `next_value_seed`: the numeric tag code
for the `"tag"` field, or the fully-drained element list for the `"data"`
field. -/
inductive FieldValue
  | tagCode (code : Nat)
  | dataSeq (vals : List Int)
deriving DecidableEq

/-- `ArrayWrapperAccess::next_value_seed`, with the data field consumed by
the canonical sequence visitor at element kind `k`: in stage `Tag` it moves
to `Data` and feeds the element tag's code to the seed without touching the
cursor; in stage `Data` it moves to `Done` (before deserializing) and runs
`ArrayDeserializer { de, size }` on the seed, which drains the elements; in
stage `Done` the source executes `panic!("extra key")`. -/
def ArrayWrapperAccess.nextValue (k : NumKind) (m : ArrayWrapperAccess) :
    Outcome FieldValue × ArrayWrapperAccess :=
  match m.stage with
  | .Tag => (.ok (.tagCode m.tag.toU8), ⟨m.de, .Data, m.tag, m.size⟩)
  | .Data =>
    match ArrayDeserializer.deserializeSeq k m.de m.size with
    | (.ok vs, de') => (.ok (.dataSeq vs), ⟨de', .Done, m.tag, m.size⟩)
    | (.error e, de') => (.err e, ⟨de', .Done, m.tag, m.size⟩)
  | .Done => (.panicked "extra key", m)

/-- Modelled from the spec: the element kind fixed by an array tag (§6 —
1 byte for byte-arrays, 4 for int-arrays, 8 for long-arrays; the mapping is
applied by the external document decoder, which is not among the provided
sources). -/
def Tag.elementKind : Tag → Option NumKind
  | .ByteArray => some .i8
  | .IntArray => some .i32
  | .LongArray => some .i64
  | _ => none

/-- The big-endian interpretation of the `i`-th element-width byte slice of
the payload starting at `pos`. -/
def beElement (k : NumKind) (input : List Nat) (pos i : Nat) : Int :=
  k.interp ((input.drop (pos + i * k.width)).take k.width)

/-! ### Helper lemmas -/

lemma NumKind.width_pos (k : NumKind) : 0 < k.width := by
  cases k <;> simp [NumKind.width]

lemma beElement_shift (k : NumKind) (input : List Nat) (pos i : Nat) :
    beElement k input pos (i + 1) = beElement k input (pos + k.width) i := by
  unfold beElement
  have h : pos + (i + 1) * k.width = pos + k.width + i * k.width := by ring
  rw [h]

lemma nextElement_pos (k : NumKind) (input : List Nat) (pos : Nat)
    (hint rem : Int) (hrem : 0 < rem) (hle : pos + k.width ≤ input.length) :
    ArrayAccess.nextElement k ⟨⟨input, pos⟩, hint, rem⟩ =
      (.ok (some (k.interp ((input.drop pos).take k.width))),
       ⟨⟨input, pos + k.width⟩, hint, rem - 1⟩) := by
  simp [ArrayAccess.nextElement, ArrayDeserializer.deserializeNum,
    Deserializer.readBytes, hrem, hle]

lemma nextElement_exhausted (k : NumKind) (a : ArrayAccess)
    (h : a.remaining ≤ 0) : ArrayAccess.nextElement k a = (.ok none, a) := by
  unfold ArrayAccess.nextElement
  rw [if_neg (by omega)]

lemma nextElement_err (k : NumKind) (input : List Nat) (pos : Nat)
    (hint rem : Int) (hrem : 0 < rem) (hgt : input.length < pos + k.width) :
    ArrayAccess.nextElement k ⟨⟨input, pos⟩, hint, rem⟩ =
      (.error .truncatedInput, ⟨⟨input, pos⟩, hint, rem - 1⟩) := by
  have hnot : ¬ (pos + k.width ≤ input.length) := by omega
  simp [ArrayAccess.nextElement, ArrayDeserializer.deserializeNum,
    Deserializer.readBytes, hrem, hnot]

lemma drain_ok (k : NumKind) (n : Nat) :
    ∀ (fuel : Nat) (input : List Nat) (pos : Nat) (hint : Int) (acc : List Int),
      n + 1 ≤ fuel →
      pos + n * k.width ≤ input.length →
      ArrayAccess.drain k fuel ⟨⟨input, pos⟩, hint, (n : Int)⟩ acc =
        (.ok (acc.reverse ++ (List.range n).map (beElement k input pos)),
         ⟨⟨input, pos + n * k.width⟩, hint, 0⟩) := by
  induction n with
  | zero =>
    intro fuel input pos hint acc hfuel hlen
    match fuel, hfuel with
    | fuel + 1, _ =>
      have hstep := nextElement_exhausted k ⟨⟨input, pos⟩, hint, ((0 : Nat) : Int)⟩
        (by simp)
      simp only [ArrayAccess.drain, hstep]
      simp
  | succ n ih =>
    intro fuel input pos hint acc hfuel hlen
    match fuel, hfuel with
    | fuel + 1, hfuel =>
      have hw : 0 < k.width := k.width_pos
      have hmul : (n + 1) * k.width = n * k.width + k.width := by ring
      have hle : pos + k.width ≤ input.length := by
        rw [hmul] at hlen
        omega
      have hrem : (0 : Int) < ((n + 1 : Nat) : Int) := by positivity
      have hstep := nextElement_pos k input pos hint ((n + 1 : Nat) : Int) hrem hle
      have hc : ((n + 1 : Nat) : Int) - 1 = ((n : Nat) : Int) := by push_cast; ring
      rw [hc] at hstep
      simp only [ArrayAccess.drain, hstep]
      have hlen' : pos + k.width + n * k.width ≤ input.length := by
        rw [hmul] at hlen
        omega
      rw [ih fuel input (pos + k.width) hint
        (k.interp ((input.drop pos).take k.width) :: acc) (by omega) hlen']
      have hpos : pos + k.width + n * k.width = pos + (n + 1) * k.width := by ring
      rw [hpos]
      have hcomp : (List.range n).map (beElement k input pos ∘ Nat.succ)
          = (List.range n).map (beElement k input (pos + k.width)) := by
        apply List.map_congr_left
        intro i _
        simpa [Nat.succ_eq_add_one] using beElement_shift k input pos i
      have h0 : beElement k input pos 0 = k.interp ((input.drop pos).take k.width) := by
        simp [beElement]
      rw [List.range_succ_eq_map, List.map_cons, List.map_map, hcomp, h0,
        List.reverse_cons, List.append_assoc]
      simp

lemma drain_err (k : NumKind) (n : Nat) :
    ∀ (fuel : Nat) (input : List Nat) (pos : Nat) (hint : Int) (acc : List Int),
      n + 1 ≤ fuel →
      input.length < pos + (n + 1) * k.width →
      ∃ a', ArrayAccess.drain k fuel ⟨⟨input, pos⟩, hint, ((n + 1 : Nat) : Int)⟩ acc
          = (.error .truncatedInput, a') := by
  induction n with
  | zero =>
    intro fuel input pos hint acc hfuel hlen
    match fuel, hfuel with
    | fuel + 1, _ =>
      have hgt : input.length < pos + k.width := by
        have h1 : (0 + 1) * k.width = k.width := by ring
        rw [h1] at hlen
        exact hlen
      have hrem : (0 : Int) < ((0 + 1 : Nat) : Int) := by norm_num
      have hstep := nextElement_err k input pos hint ((0 + 1 : Nat) : Int) hrem hgt
      refine ⟨⟨⟨input, pos⟩, hint, ((0 + 1 : Nat) : Int) - 1⟩, ?_⟩
      simp only [ArrayAccess.drain, hstep]
  | succ n ih =>
    intro fuel input pos hint acc hfuel hlen
    match fuel, hfuel with
    | fuel + 1, hfuel =>
      have hrem : (0 : Int) < ((n + 1 + 1 : Nat) : Int) := by positivity
      by_cases hle : pos + k.width ≤ input.length
      · have hstep := nextElement_pos k input pos hint ((n + 1 + 1 : Nat) : Int) hrem hle
        have hc : ((n + 1 + 1 : Nat) : Int) - 1 = ((n + 1 : Nat) : Int) := by
          push_cast; ring
        rw [hc] at hstep
        have hlen' : input.length < pos + k.width + (n + 1) * k.width := by
          have hmul : (n + 1 + 1) * k.width = (n + 1) * k.width + k.width := by ring
          rw [hmul] at hlen
          omega
        obtain ⟨a', ha'⟩ := ih fuel input (pos + k.width) hint
          (k.interp ((input.drop pos).take k.width) :: acc) (by omega) hlen'
        refine ⟨a', ?_⟩
        simp only [ArrayAccess.drain, hstep]
        exact ha'
      · have hgt : input.length < pos + k.width := by omega
        have hstep := nextElement_err k input pos hint ((n + 1 + 1 : Nat) : Int) hrem hgt
        refine ⟨⟨⟨input, pos⟩, hint, ((n + 1 + 1 : Nat) : Int) - 1⟩, ?_⟩
        simp only [ArrayAccess.drain, hstep]

/-! ### Claims -/

/-- C8: in the AwaitingTagField stage, `next_value_seed` transitions the
stage to AwaitingDataField and supplies the numeric code of the declared
element tag; the cursor is neither read nor advanced — the resulting state
carries `m.de` unchanged, so the position afterwards equals the position
before the call. -/
theorem c8_tag_value (m : ArrayWrapperAccess) (k : NumKind)
    (h : m.stage = .Tag) :
    m.nextValue k =
      (.ok (.tagCode m.tag.toU8), ⟨m.de, .Data, m.tag, m.size⟩) := by
  unfold ArrayWrapperAccess.nextValue
  rw [h]

/-- Witness for C8 at a concrete adapter instance. -/
theorem c8_tag_value_witness :
    ArrayWrapperAccess.nextValue .i32 ⟨⟨[1, 2], 0⟩, .Tag, .IntArray, 3⟩ =
      (.ok (.tagCode 11), ⟨⟨[1, 2], 0⟩, .Data, .IntArray, 3⟩) := by
  have h := c8_tag_value ⟨⟨[1, 2], 0⟩, .Tag, .IntArray, 3⟩ .i32 rfl
  exact h.trans (by decide)

/-- C9: every entry point `ArrayDeserializer` forwards to `deserialize_any`
(bool, 16- and 128-bit integers, floats, char, strings, bytes, maps,
structs, ...) fails fast with the protocol-misuse error and does not
advance the cursor. -/
theorem c9_unsupported_fails_fast (u : UnsupportedKind) (de : Deserializer) :
    ArrayDeserializer.deserializeReq (.other u) de =
      (.error (.protocolMisuse
        "fastnbt issue: unexpected any in ArrayDeserializer"), de) := rfl

/-- C10: an `ArrayAccess` created with a negative declared size returns no
size hint at all, and its first `next_element_seed` call signals exhaustion
without reading any byte or raising any error — the negative count is
silently an empty sequence. -/
theorem c10_negative_size_empty (de : Deserializer) (size : Int)
    (k : NumKind) (h : size < 0) :
    (ArrayAccess.new de size).sizeHint = none ∧
      (ArrayAccess.new de size).nextElement k =
        (.ok none, ArrayAccess.new de size) := by
  constructor
  · have hh : (ArrayAccess.new de size).hint = size := rfl
    unfold ArrayAccess.sizeHint
    rw [hh, if_neg (by omega)]
  · refine nextElement_exhausted k _ ?_
    show size ≤ 0
    omega

/-- Witness for C10 at declared size -1. -/
theorem c10_negative_size_empty_witness :
    (ArrayAccess.new ⟨[1, 2, 3], 0⟩ (-1)).sizeHint = none ∧
      (ArrayAccess.new ⟨[1, 2, 3], 0⟩ (-1)).nextElement .i8 =
        (.ok none, ArrayAccess.new ⟨[1, 2, 3], 0⟩ (-1)) :=
  c10_negative_size_empty ⟨[1, 2, 3], 0⟩ (-1) .i8 (by decide)

/-- C4 counterexample: after producing the single element of a one-element
byte array, `remaining` is 0 but `size_hint()` still reports 1 — it does
not return the remaining declared count. -/
theorem c4_counterexample :
    (((ArrayAccess.new ⟨[7], 0⟩ 1).nextElement .i8).2).remaining = 0 ∧
      (((ArrayAccess.new ⟨[7], 0⟩ 1).nextElement .i8).2).sizeHint = some 1 := by
  decide

/-- C4 amended: `size_hint()` returns the initially declared count (`none`
when it is negative) at every point during iteration — the hint is captured
at construction and never updated by `next_element_seed` — so before any
element is pulled it equals the declared count, and it keeps that value
afterwards. -/
theorem c4_size_hint_is_initial (de : Deserializer) (size : Int) :
    (ArrayAccess.new de size).sizeHint
        = (if 0 ≤ size then some size.toNat else none) ∧
      ∀ (k : NumKind) (a : ArrayAccess),
        ((a.nextElement k).2).sizeHint = a.sizeHint := by
  refine ⟨rfl, ?_⟩
  intro k a
  unfold ArrayAccess.nextElement
  by_cases h : a.remaining > 0
  · rw [if_pos h]
    rcases hm : ArrayDeserializer.deserializeNum k a.de with ⟨r, de'⟩
    cases r <;> simp [ArrayAccess.sizeHint]
  · rw [if_neg h]

/-- C5 counterexample: with the adapter still awaiting the tag field,
requesting the field name a second time (no value requested in between)
succeeds again with `"tag"` — no `ProtocolMisuse` is raised — and the
state, cursor included, is unchanged. -/
theorem c5_counterexample :
    (ArrayWrapperAccess.new ⟨[9, 9], 0⟩ 2 .ByteArray).nextKey =
        (.ok (some "tag"), ArrayWrapperAccess.new ⟨[9, 9], 0⟩ 2 .ByteArray) ∧
      (((ArrayWrapperAccess.new ⟨[9, 9], 0⟩ 2 .ByteArray).nextKey).2).nextKey =
        (.ok (some "tag"), ArrayWrapperAccess.new ⟨[9, 9], 0⟩ 2 .ByteArray) :=
  ⟨rfl, rfl⟩

/-- C5 amended: requesting the `"tag"` field name a second time without
requesting the value does not fail: while the stage is AwaitingTagField,
every `next_key_seed` call returns `"tag"` and leaves the whole state —
stage and cursor — unchanged (the stage only advances inside
`next_value_seed`). -/
theorem c5_key_request_repeats (m : ArrayWrapperAccess)
    (h : m.stage = .Tag) : m.nextKey = (.ok (some "tag"), m) := by
  unfold ArrayWrapperAccess.nextKey
  rw [h]

/-- Witness for C5 amended at a concrete adapter instance. -/
theorem c5_key_request_repeats_witness :
    (ArrayWrapperAccess.new ⟨[4, 5, 6], 1⟩ 7 .LongArray).nextKey =
      (.ok (some "tag"), ArrayWrapperAccess.new ⟨[4, 5, 6], 1⟩ 7 .LongArray) :=
  c5_key_request_repeats (ArrayWrapperAccess.new ⟨[4, 5, 6], 1⟩ 7 .LongArray) rfl

/-- C2 counterexample: in the Done stage `next_value_seed` does not return
a `ProtocolMisuse` error value: the source executes `panic!("extra key")`,
an abort that produces no `Error` at all. -/
theorem c2_counterexample :
    (ArrayWrapperAccess.nextValue .i32 ⟨⟨[], 0⟩, .Done, .IntArray, 0⟩).1 =
      .panicked "extra key" := rfl

/-- C2 amended: a further `next_value_seed` call in the Done stage aborts
the decode by panicking with "extra key" rather than returning any error
value; the adapter state is left unchanged. -/
theorem c2_done_panics (m : ArrayWrapperAccess) (k : NumKind)
    (h : m.stage = .Done) : m.nextValue k = (.panicked "extra key", m) := by
  unfold ArrayWrapperAccess.nextValue
  rw [h]

/-- Witness for C2 amended at a concrete exhausted adapter. -/
theorem c2_done_panics_witness :
    ArrayWrapperAccess.nextValue .i8 ⟨⟨[3], 0⟩, .Done, .ByteArray, 1⟩ =
      (.panicked "extra key", ⟨⟨[3], 0⟩, .Done, .ByteArray, 1⟩) :=
  c2_done_panics ⟨⟨[3], 0⟩, .Done, .ByteArray, 1⟩ .i8 rfl

/-- C3 counterexample: a declared count of -1 does not fail with
`MalformedLength` in this component: consuming the data field of an
int-array adapter with size -1 succeeds with an empty sequence, and no
element byte is read (the cursor stays at 0). -/
theorem c3_counterexample :
    ArrayWrapperAccess.nextValue .i32 ⟨⟨[1, 2, 3, 4], 0⟩, .Data, .IntArray, -1⟩ =
      (.ok (.dataSeq []), ⟨⟨[1, 2, 3, 4], 0⟩, .Done, .IntArray, -1⟩) := by
  decide

/-- C3 amended: this component performs no count validation: for every
negative declared count the data field decodes as an empty sequence with no
byte read and no error of any kind — exhaustion is reported immediately
instead of `MalformedLength`. -/
theorem c3_negative_count_not_rejected (de : Deserializer) (t : Tag)
    (size : Int) (k : NumKind) (h : size < 0) :
    ArrayWrapperAccess.nextValue k ⟨de, .Data, t, size⟩ =
      (.ok (.dataSeq []), ⟨de, .Done, t, size⟩) := by
  have h0 : size.toNat = 0 := Int.toNat_of_nonpos h.le
  have hstep := nextElement_exhausted k (ArrayAccess.new de size)
    (by simp only [ArrayAccess.new]; omega)
  have hdrain : ArrayAccess.drain k (size.toNat + 1) (ArrayAccess.new de size) []
      = (.ok [], ArrayAccess.new de size) := by
    rw [h0]
    simp only [ArrayAccess.drain, hstep]
    simp
  simp only [ArrayWrapperAccess.nextValue, ArrayDeserializer.deserializeSeq, hdrain]
  simp [ArrayAccess.new]

/-- Witness for C3 amended at declared size -7. -/
theorem c3_negative_count_not_rejected_witness :
    ArrayWrapperAccess.nextValue .i64 ⟨⟨[5], 0⟩, .Data, .LongArray, -7⟩ =
      (.ok (.dataSeq []), ⟨⟨[5], 0⟩, .Done, .LongArray, -7⟩) :=
  c3_negative_count_not_rejected ⟨[5], 0⟩ .LongArray (-7) .i64 (by decide)

/-- C6 counterexample: a 16-bit integer is not a supported scalar kind:
with two bytes available, an `i16` request does not read them —
`forward_to_deserialize_any!` routes the call to `deserialize_any`, which
fails with the protocol-misuse error and leaves the cursor at 0. -/
theorem c6_counterexample :
    ArrayDeserializer.deserializeReq (.other .i16) ⟨[0, 1], 0⟩ =
      (.error (.protocolMisuse
        "fastnbt issue: unexpected any in ArrayDeserializer"),
       ⟨[0, 1], 0⟩) := rfl

/-- C6 amended: the scalar kinds `ArrayDeserializer` supports are exactly
the 8/32/64-bit signed and unsigned integers; for each of these, the
deserialize method reads exactly the kind's width from the cursor in
big-endian order, advances the cursor by that width and returns the typed
value, and when fewer bytes remain it fails with `truncatedInput` and
leaves the cursor unchanged. 16-bit and 128-bit integers and the float
kinds are instead forwarded to the failing `deserialize_any`. -/
theorem c6_scalar_reads (k : NumKind) (de : Deserializer) :
    (de.pos + k.width ≤ de.input.length →
        ArrayDeserializer.deserializeNum k de =
          (.ok (k.interp ((de.input.drop de.pos).take k.width)),
           ⟨de.input, de.pos + k.width⟩)) ∧
      (de.input.length < de.pos + k.width →
        ArrayDeserializer.deserializeNum k de =
          (.error .truncatedInput, de)) := by
  constructor
  · intro h
    simp [ArrayDeserializer.deserializeNum, Deserializer.readBytes, h]
  · intro h
    have hnot : ¬ (de.pos + k.width ≤ de.input.length) := by omega
    simp [ArrayDeserializer.deserializeNum, Deserializer.readBytes, hnot]

/-- Witness for C6 amended: the 4-byte big-endian `i32` read of bytes
`[0, 0, 1, 44]` yields 300 and advances the cursor from 0 to 4. -/
theorem c6_scalar_reads_witness :
    ArrayDeserializer.deserializeNum .i32 ⟨[0, 0, 1, 44], 0⟩ =
      (.ok 300, ⟨[0, 0, 1, 44], 4⟩) := by
  have h := (c6_scalar_reads .i32 ⟨[0, 0, 1, 44], 0⟩).1 (by decide)
  exact h.trans rfl

/-- C7: for an element sequence with non-negative declared count `n` (the
consumer pulling scalars of kind `k`): when the buffer holds all `n`
elements, the canonical driver performs exactly `n` productions and then
sees exhaustion (`remaining` 0, the next pull reports `none`); when the
bytes run out first (`n ≠ 0` and the payload is short), the read's
`truncatedInput` failure propagates out unmodified and no partial element
list is returned. -/
theorem c7_exact_productions (k : NumKind) (de : Deserializer) (n : Nat)
    (fuel : Nat) (hfuel : n + 1 ≤ fuel) :
    (de.pos + n * k.width ≤ de.input.length →
        ArrayAccess.drain k fuel (ArrayAccess.new de (n : Int)) [] =
          (.ok ((List.range n).map (beElement k de.input de.pos)),
           ⟨⟨de.input, de.pos + n * k.width⟩, (n : Int), 0⟩) ∧
        ((List.range n).map (beElement k de.input de.pos)).length = n ∧
        ArrayAccess.nextElement k ⟨⟨de.input, de.pos + n * k.width⟩, (n : Int), 0⟩ =
          (.ok none, ⟨⟨de.input, de.pos + n * k.width⟩, (n : Int), 0⟩)) ∧
      (n ≠ 0 → de.input.length < de.pos + n * k.width →
        ∃ a', ArrayAccess.drain k fuel (ArrayAccess.new de (n : Int)) [] =
          (.error .truncatedInput, a')) := by
  obtain ⟨input, pos⟩ := de
  constructor
  · intro hlen
    refine ⟨?_, by simp, nextElement_exhausted k _ (by simp)⟩
    have h := drain_ok k n fuel input pos (n : Int) [] hfuel hlen
    simpa [ArrayAccess.new] using h
  · intro hn hlen
    match n, hn with
    | m + 1, _ =>
      obtain ⟨a', ha'⟩ := drain_err k m fuel input pos ((m + 1 : Nat) : Int) []
        (by omega) hlen
      exact ⟨a', by simpa [ArrayAccess.new] using ha'⟩

/-- Witness for C7: a two-element byte array over payload `[10, 20]` is
drained in exactly two productions, ending exhausted at position 2. -/
theorem c7_exact_productions_witness :
    ArrayAccess.drain NumKind.i8 3
        (ArrayAccess.new ⟨[10, 20], 0⟩ ((2 : Nat) : Int)) [] =
      (.ok ((List.range 2).map (beElement NumKind.i8 [10, 20] 0)),
       ⟨⟨[10, 20], 0 + 2 * NumKind.i8.width⟩, ((2 : Nat) : Int), 0⟩) ∧
    ((List.range 2).map (beElement NumKind.i8 [10, 20] 0)).length = 2 ∧
    ArrayAccess.nextElement NumKind.i8
        ⟨⟨[10, 20], 0 + 2 * NumKind.i8.width⟩, ((2 : Nat) : Int), 0⟩ =
      (.ok none, ⟨⟨[10, 20], 0 + 2 * NumKind.i8.width⟩, ((2 : Nat) : Int), 0⟩) :=
  (c7_exact_productions NumKind.i8 ⟨[10, 20], 0⟩ 2 3 (by decide)).1 (by decide)

/-- C1: for a valid typed-array input — element tag `t` whose kind is `k`,
non-negative declared count `n`, and a payload of exactly `n` elements of
`k`'s width — fully consuming the synthetic record yields the key "tag",
the declared tag's numeric code unchanged, the key "data", a data sequence
of length exactly `n` whose `i`-th element is the big-endian interpretation
of the `i`-th element-width byte slice of the payload, and then
end-of-record. -/
theorem c1_full_consumption (t : Tag) (k : NumKind) (n : Nat)
    (de : Deserializer) (_hk : t.elementKind = some k)
    (hlen : de.pos + n * k.width = de.input.length) :
    (ArrayWrapperAccess.new de (n : Int) t).nextKey =
        (.ok (some "tag"), ArrayWrapperAccess.new de (n : Int) t) ∧
      (ArrayWrapperAccess.new de (n : Int) t).nextValue k =
        (.ok (.tagCode t.toU8), ⟨de, .Data, t, (n : Int)⟩) ∧
      ArrayWrapperAccess.nextKey ⟨de, .Data, t, (n : Int)⟩ =
        (.ok (some "data"), ⟨de, .Data, t, (n : Int)⟩) ∧
      ArrayWrapperAccess.nextValue k ⟨de, .Data, t, (n : Int)⟩ =
        (.ok (.dataSeq ((List.range n).map (beElement k de.input de.pos))),
         ⟨⟨de.input, de.pos + n * k.width⟩, .Done, t, (n : Int)⟩) ∧
      ((List.range n).map (beElement k de.input de.pos)).length = n ∧
      (∀ i, i < n →
        ((List.range n).map (beElement k de.input de.pos))[i]? =
          some (k.interp ((de.input.drop (de.pos + i * k.width)).take k.width))) ∧
      ArrayWrapperAccess.nextKey
          ⟨⟨de.input, de.pos + n * k.width⟩, .Done, t, (n : Int)⟩ =
        (.ok none, ⟨⟨de.input, de.pos + n * k.width⟩, .Done, t, (n : Int)⟩) := by
  obtain ⟨input, pos⟩ := de
  refine ⟨rfl, rfl, rfl, ?_, by simp, ?_, rfl⟩
  · have hd := drain_ok k n (n + 1) input pos ((n : Nat) : Int) []
      (le_refl _) (le_of_eq hlen)
    have hfuel : ((n : Nat) : Int).toNat + 1 = n + 1 := by simp
    simp only [ArrayWrapperAccess.nextValue, ArrayDeserializer.deserializeSeq,
      ArrayAccess.new, hfuel, hd]
    simp
  · intro i hi
    simp [List.getElem?_map, List.getElem?_range, hi, beElement]

/-- Witness for C1: an int-array adapter over the 8-byte payload encoding
`[1, -2]` is fully consumed into tag code 11 and data `[1, -2]`. -/
theorem c1_full_consumption_witness :
    ArrayWrapperAccess.nextValue .i32
        ⟨⟨[0, 0, 0, 1, 255, 255, 255, 254], 0⟩, .Data, .IntArray, ((2 : Nat) : Int)⟩ =
      (.ok (.dataSeq [1, -2]),
       ⟨⟨[0, 0, 0, 1, 255, 255, 255, 254], 8⟩, .Done, .IntArray, ((2 : Nat) : Int)⟩) := by
  have h := (c1_full_consumption .IntArray .i32 2
    ⟨[0, 0, 0, 1, 255, 255, 255, 254], 0⟩ rfl (by decide)).2.2.2.1
  exact h.trans (by decide)

end FastNbt
